import Mathlib

/-!
Shallow embedding of the BlueRetro Bluetooth host core
(`src/main/bluetooth/host.c`) and proofs about it.

Packets and buffers are modelled as `List Nat` of byte values; the packed
header fields of `struct bt_hci_pkt` are read at their little-endian byte
offsets exactly as the C aliasing of the packed struct does.  Machine
integer truncation is explicit (`% 256` for `uint8_t` conversion,
`usub32` for `uint32_t` subtraction).  External collaborators
(`bt_att_hdlr`, `bt_l2cap_sig_hdlr`, `bt_sdp_hdlr`, `bt_hid_hdlr`,
`adapter_bridge`, the FreeRTOS ring buffer and `esp_vhci` transport) are
represented by the observable action the host core performs, not by their
internals, which are out of scope.
-/

namespace BlueRetro

/-! ## Header layout and constants

`BT_HCI_H4_HDR_SIZE = 1`, `BT_HCI_ACL_HDR_SIZE = 4`,
`sizeof(struct bt_l2cap_hdr) = 4` per the packed wire structs; the ACL
flag values and the fixed L2CAP channel ids are the standard Bluetooth
values used by the headers included from `host.c`. -/

def BT_HCI_H4_HDR_SIZE : Nat := 1

def BT_HCI_ACL_HDR_SIZE : Nat := 4

def BT_L2CAP_HDR_SIZE : Nat := 4

/-- Total header overhead in front of the L2CAP payload of a start packet. -/
def HDR_OVERHEAD : Nat := BT_HCI_H4_HDR_SIZE + BT_HCI_ACL_HDR_SIZE + BT_L2CAP_HDR_SIZE

def BT_ACL_CONT : Nat := 1

def BT_ACL_START : Nat := 2

def BT_L2CAP_CID_BR_SIG : Nat := 1

def BT_L2CAP_CID_ATT : Nat := 4

def BT_DEV_MAX : Nat := 7

/-- Bit index of the `BT_DEV_DEVICE_FOUND` flag (modelled bit position;
only its identity matters, never its numeric value). -/
def BT_DEV_DEVICE_FOUND : Nat := 0

/-- Bit index of the adapter `BT_INIT` flag (modelled bit position). -/
def BT_INIT : Nat := 0

/-- Device type value `HID_GENERIC` (modelled enum value). -/
def HID_GENERIC : Nat := 0

/-- Read a little-endian 16-bit field at byte offset `off`. -/
def rd16 (p : List Nat) (off : Nat) : Nat :=
  p.getD off 0 + 256 * p.getD (off + 1) 0

/-- `pkt->acl_hdr.handle` (byte offset 1, after the H4 type byte). -/
def acl_handle_field (p : List Nat) : Nat := rd16 p 1

/-- `pkt->acl_hdr.len` (byte offset 3). -/
def acl_len_field (p : List Nat) : Nat := rd16 p 3

/-- `pkt->l2cap_hdr.len` (byte offset 5). -/
def l2cap_len_field (p : List Nat) : Nat := rd16 p 5

/-- `pkt->l2cap_hdr.cid` (byte offset 7). -/
def l2cap_cid_field (p : List Nat) : Nat := rd16 p 7

/-- `bt_acl_flags(h)`: the packet-boundary flag bits above the 12-bit handle. -/
def bt_acl_flags (h : Nat) : Nat := h / 4096

/-- `bt_acl_handle(h)`: the handle masked to its low 12 bits. -/
def bt_acl_handle (h : Nat) : Nat := h % 4096

/-- Wrapping `uint32_t` subtraction `a - b` for `b ≤ 2^32`. -/
def usub32 (a b : Nat) : Nat := (a + (4294967296 - b)) % 4294967296

/-! ## Device session table (`struct bt_dev` slots of `bt_dev[BT_DEV_MAX]`)

Only the fields `host.c` reads or writes are modelled. -/

structure BtDev where
  flags : Nat
  acl_handle : Nat
  id : Nat
  type : Nat
  sdp_tx_scid : Nat
  sdp_rx_scid : Nat
  ctrl_scid : Nat
  intr_scid : Nat
deriving Repr, DecidableEq

/-- The all-zero session produced by `memset(device, 0, sizeof(*device))`. -/
def zeroBtDev : BtDev := ⟨0, 0, 0, 0, 0, 0, 0, 0⟩

/-- Scan of `bt_host_get_dev_from_handle`: first slot with the
`BT_DEV_DEVICE_FOUND` bit set whose stored handle equals the masked
input handle. -/
def getDevScan (h : Nat) : List BtDev → Option BtDev
  | [] => none
  | d :: rest =>
    if d.flags.testBit BT_DEV_DEVICE_FOUND ∧ bt_acl_handle h = d.acl_handle then
      some d
    else getDevScan h rest

/-- `bt_host_get_dev_from_handle` (result device; `-1`/`NULL` is `none`). -/
def bt_host_get_dev_from_handle (devs : List BtDev) (h : Nat) : Option BtDev :=
  getDevScan h devs

/-- Scan of `bt_host_get_new_dev` starting at slot index `i`. -/
def getNewDevScan : List BtDev → Nat → Option Nat
  | [], _ => none
  | d :: rest, i =>
    if d.flags.testBit BT_DEV_DEVICE_FOUND then getNewDevScan rest (i + 1)
    else some i

/-- `bt_host_get_new_dev`: index of the first slot whose
`BT_DEV_DEVICE_FOUND` bit is clear, `none` when every slot has it set. -/
def bt_host_get_new_dev (devs : List BtDev) : Option Nat :=
  getNewDevScan devs 0

/-! ## Generic adapter data (`bt_adapter.data[i]`, fields used by host.c) -/

structure BtReport where
  id : Nat
  len : Nat
deriving Repr, DecidableEq

structure AdapterData where
  flags : Nat
  report_cnt : Nat
  report_id : Nat
  report_type : Nat
  dev_id : Nat
  dev_type : Nat
  input : List Nat
  reports : List BtReport
deriving Repr, DecidableEq

/-- The zeroed adapter slot produced by
`memset(&bt_adapter.data[id], 0, ...)` / `adapter_init_buffer`. -/
def zeroAdapterData : AdapterData := ⟨0, 0, 0, 0, 0, 0, [], []⟩

/-- `bt_host_reset_dev`: zero the session and its generic-adapter slot. -/
def bt_host_reset_dev (devs : List BtDev) (adata : List AdapterData) (i : Nat) :
    List BtDev × List AdapterData :=
  (devs.set i zeroBtDev, adata.set i zeroAdapterData)

/-! ## ACL fragment reassembler and router (`bt_host_acl_hdlr`)

The global scratch state `frag_buf` / `frag_offset` / `frag_size` is made
an explicit `FragState`.  The buffer is modelled as the list of its
meaningful bytes: a `memcpy` at `frag_offset` becomes truncate-and-append
(bytes past the write are never read by the code before being rewritten).
Dispatch to one of the protocol handlers is reified as a `RoutedFrame`
describing which handler receives which frame. -/

structure FragState where
  fragBuf : List Nat
  fragOffset : Nat
  fragSize : Nat
deriving Repr, DecidableEq

inductive Route where
  | att
  | dropNull
  | sig
  | sdp
  | hid
  | unmatched
deriving Repr, DecidableEq

structure RoutedFrame where
  bytes : List Nat
  len : Nat
  route : Route
deriving Repr, DecidableEq

/-- The channel-id equality chain of lines 276-297 of `host.c`:
no device resolved → ATT or logged drop; device resolved → signaling,
then SDP scid pair, then HID control/interrupt scid pair. -/
def routeCid (device : Option BtDev) (cid : Nat) : Route :=
  match device with
  | none => if cid = BT_L2CAP_CID_ATT then .att else .dropNull
  | some d =>
    if cid = BT_L2CAP_CID_BR_SIG then .sig
    else if cid = d.sdp_tx_scid ∨ cid = d.sdp_rx_scid then .sdp
    else if cid = d.ctrl_scid ∨ cid = d.intr_scid then .hid
    else .unmatched

/-- Lines 267-297 of `bt_host_acl_hdlr`: the fragmentation-start check on
the current `pkt`/`pkt_len`, falling through to the routing chain.
`usub32` reproduces the `uint32_t` wrap of `pkt_len - (hdr sizes)`. -/
def startCheckAndRoute (device : Option BtDev) (st : FragState)
    (pkt : List Nat) (pktLen : Nat) : FragState × Option RoutedFrame :=
  if bt_acl_flags (acl_handle_field pkt) = BT_ACL_START ∧
      usub32 pktLen HDR_OVERHEAD < l2cap_len_field pkt then
    ({ fragBuf := pkt.take pktLen, fragOffset := pktLen,
       fragSize := l2cap_len_field pkt + HDR_OVERHEAD }, none)
  else
    (st, some ⟨pkt, pktLen, routeCid device (l2cap_cid_field pkt)⟩)

/-- `bt_host_acl_hdlr`: device lookup from the incoming packet handle,
continuation append (returning early while short of `frag_size`,
otherwise rebinding `pkt` to the scratch buffer), then the start check
and the routing chain. -/
def bt_host_acl_hdlr (devs : List BtDev) (st : FragState)
    (pkt : List Nat) (len : Nat) : FragState × Option RoutedFrame :=
  let device := bt_host_get_dev_from_handle devs (acl_handle_field pkt)
  if bt_acl_flags (acl_handle_field pkt) = BT_ACL_CONT then
    let buf := st.fragBuf.take st.fragOffset ++
      (pkt.drop (BT_HCI_H4_HDR_SIZE + BT_HCI_ACL_HDR_SIZE)).take (acl_len_field pkt)
    let off := st.fragOffset + acl_len_field pkt
    if off < st.fragSize then
      ({ fragBuf := buf, fragOffset := off, fragSize := st.fragSize }, none)
    else
      startCheckAndRoute device
        { fragBuf := buf, fragOffset := off, fragSize := st.fragSize } buf st.fragSize
  else
    startCheckAndRoute device st pkt len

/-- Feed a sequence of physical ACL packets through `bt_host_acl_hdlr`,
collecting the per-packet dispatch outcome. -/
def aclRun (devs : List BtDev) (st : FragState) :
    List (List Nat) → FragState × List (Option RoutedFrame)
  | [] => (st, [])
  | p :: rest =>
    let step := bt_host_acl_hdlr devs st p p.length
    let cont := aclRun devs step.1 rest
    (cont.1, step.2 :: cont.2)

/-- Well-formed continuation fragment: continuation flag set, a positive
ACL payload length, and a physical length matching the ACL header. -/
def wfCont (c : List Nat) : Prop :=
  bt_acl_flags (acl_handle_field c) = BT_ACL_CONT ∧
  0 < acl_len_field c ∧
  c.length = BT_HCI_H4_HDR_SIZE + BT_HCI_ACL_HDR_SIZE + acl_len_field c

instance : DecidablePred wfCont := fun c => by
  unfold wfCont; infer_instance

/-! ## Link-key ring (`bt_host_link_keys`) -/

structure bt_hci_evt_link_key_notify where
  bdaddr : List Nat
  link_key : List Nat
deriving Repr, DecidableEq

/-- An all-zero record, the initial content of every ring slot. -/
def zeroLinkKey : bt_hci_evt_link_key_notify :=
  ⟨List.replicate 6 0, List.replicate 16 0⟩

structure BtHostLinkKeys where
  index : Nat
  link_keys : List bt_hci_evt_link_key_notify
deriving Repr, DecidableEq

/-- The scan loop of `bt_host_store_link_key`: walk all entries, remember
the index of the last one whose address matches, defaulting to `acc`
(the insertion cursor). -/
def keyScanIdx (addr : List Nat) : List bt_hci_evt_link_key_notify → Nat → Nat → Nat
  | [], _, acc => acc
  | e :: rest, i, acc =>
    keyScanIdx addr rest (i + 1) (if e.bdaddr = addr then i else acc)

/-- `bt_host_store_link_key` (in-memory effect; the file flush is an
external side effect whose failure does not roll back the update). -/
def bt_host_store_link_key (st : BtHostLinkKeys)
    (rec : bt_hci_evt_link_key_notify) : BtHostLinkKeys :=
  let index := keyScanIdx rec.bdaddr st.link_keys 0 st.index
  let keys1 := st.link_keys.set index rec
  if index = st.index then
    { index := (st.index + 1) % 16, link_keys := keys1 }
  else
    { index := st.index, link_keys := keys1 }

/-- The scan loop of `bt_host_load_link_key`: every matching entry
overwrites the output key and sets the result to `0`. -/
def keyLoadScan (addr : List Nat) :
    List bt_hci_evt_link_key_notify → List Nat × Int → List Nat × Int
  | [], acc => acc
  | e :: rest, acc =>
    keyLoadScan addr rest (if e.bdaddr = addr then (e.link_key, 0) else acc)

/-- `bt_host_load_link_key`: returns the (possibly unmodified) output key
buffer and the status (`0` found, `-1` absent). -/
def bt_host_load_link_key (st : BtHostLinkKeys) (addr : List Nat)
    (out : List Nat) : List Nat × Int :=
  keyLoadScan addr st.link_keys (out, -1)

/-- Proof-side helper: index of the last entry matching `addr`, if any. -/
def lastMatchIdx (addr : List Nat) : List bt_hci_evt_link_key_notify → Option Nat
  | [] => none
  | e :: rest =>
    match lastMatchIdx addr rest with
    | some m => some (m + 1)
    | none => if e.bdaddr = addr then some 0 else none

/-! ## Bridge path (`bt_host_bridge`) -/

/-- The report-table scan of the `HID_GENERIC` branch: first entry whose
id matches, together with its index (the C loop breaks at the first
match). -/
def findReport (rid : Nat) : List BtReport → Nat → Option (Nat × BtReport)
  | [], _ => none
  | r :: rest, i => if r.id = rid then some (i, r) else findReport rid rest (i + 1)

/-- `bt_host_bridge` acting on the session's adapter slot; the returned
`Bool` records whether the external `adapter_bridge` capability was
invoked. -/
def bt_host_bridge (device : BtDev) (report_id : Nat) (dat : List Nat)
    (len : Nat) (ad : AdapterData) : AdapterData × Bool :=
  match (if device.type = HID_GENERIC then
            match findReport report_id ad.reports 0 with
            | some ir => some ({ ad with report_type := ir.1 }, ir.2.len)
            | none => none
          else some (ad, len)) with
  | none => (ad, false)
  | some adLen =>
    let ad1 := adLen.1
    if ad1.flags.testBit BT_INIT ∨ 1 < ad1.report_cnt then
      ({ ad1 with report_id := report_id, dev_id := device.id,
                  dev_type := device.type,
                  input := dat.take adLen.2 ++ ad1.input.drop adLen.2,
                  report_cnt := ad1.report_cnt + 1 }, true)
    else
      ({ ad1 with report_cnt := ad1.report_cnt + 1 }, false)

/-! ## Transmit queue drain (`bt_tx_task`) and ready gate -/

inductive TxAction where
  | idle
  | sleep (ms : Nat)
  | send (pkt : List Nat)
deriving Repr, DecidableEq

structure TxState where
  ready : Bool
  queue : List (List Nat)
deriving Repr, DecidableEq

/-- One iteration of the `bt_tx_task` loop body: do nothing unless the
`BT_CTRL_READY` flag is set; otherwise pop one entry and either sleep on
a `0xFF` delay marker or clear the ready flag and send. -/
def bt_tx_step (s : TxState) : TxState × TxAction :=
  if s.ready then
    match s.queue with
    | [] => (s, .idle)
    | p :: rest =>
      if p.getD 0 0 = 255 then ({ s with queue := rest }, .sleep (p.getD 1 0))
      else ({ ready := false, queue := rest }, .send p)
  else (s, .idle)

/-- `bt_host_tx_pkt_ready`, the adapter `onReady` callback: sets the
`BT_CTRL_READY` flag. -/
def bt_host_tx_pkt_ready (s : TxState) : TxState :=
  { s with ready := true }

inductive TxEvent where
  | loopIter
  | onReady
deriving Repr, DecidableEq

/-- Interleaving semantics: either the drain task runs one iteration or
the controller fires the ready callback. -/
def txEventStep (s : TxState) (e : TxEvent) : TxState × TxAction :=
  match e with
  | .loopIter => bt_tx_step s
  | .onReady => (bt_host_tx_pkt_ready s, .idle)

/-- Action trace of a sequence of interleaved events. -/
def txTrace (s : TxState) : List TxEvent → List TxAction
  | [] => []
  | e :: es => (txEventStep s e).2 :: txTrace (txEventStep s e).1 es

/-- `bt_host_q_wait_pkt`: build the synthetic wait packet
`{0xFF, (uint8_t)ms}`; the `uint8_t` initializer truncates `ms` mod 256. -/
def bt_host_q_wait_pkt (ms : Nat) : List Nat :=
  [255, ms % 256]

/-! ## Feedback relay (`bt_fb_task`) -/

/-- The session resolution of one `bt_fb_task` iteration:
`&bt_dev[fb_data[0]]`, the first blob byte used directly as the slot
index.  `none` models the out-of-bounds access the C code would perform
when the byte is not a valid index. -/
def bt_fb_resolve (devs : List BtDev) (fb : List Nat) : Option BtDev :=
  devs.get? (fb.getD 0 0)

/-! ## Concrete inputs used by witness and counterexample theorems -/

def cexAddr : List Nat := [1, 2, 3, 4, 5, 6]

def keyA : List Nat := List.replicate 16 7

def keyB : List Nat := List.replicate 16 9

def recA : bt_hci_evt_link_key_notify := ⟨cexAddr, keyA⟩

def lk0 : BtHostLinkKeys := ⟨0, List.replicate 16 zeroLinkKey⟩

def lkCex : BtHostLinkKeys := ⟨0, recA :: List.replicate 15 zeroLinkKey⟩

/-- Fragmented start packet: declared L2CAP length 4, two payload bytes
physically present (11 bytes total, so `11 - 9 = 2 < 4`). -/
def w1s : List Nat := [2, 0, 32, 6, 0, 4, 0, 64, 0, 170, 187]

/-- Continuation packet carrying the remaining two payload bytes. -/
def w1c : List Nat := [2, 0, 16, 2, 0, 204, 221]

def w5dev : BtDev := ⟨1, 11, 0, 3, 64, 65, 66, 67⟩

/-- Complete (non-fragmented) ACL frame for handle 11, cid 66. -/
def w5pkt : List Nat := [2, 11, 32, 8, 0, 4, 0, 66, 0, 1, 2, 3, 4]

def w7found : BtDev := { zeroBtDev with flags := 1 }

def w7devs : List BtDev :=
  [w7found, w7found, w7found, zeroBtDev, w7found, zeroBtDev, w7found]

def w2dev : BtDev := { zeroBtDev with type := 1 }

def w8ad : AdapterData :=
  { zeroAdapterData with report_cnt := 5, reports := [⟨1, 2⟩, ⟨2, 3⟩] }

def w10devs : List BtDev := List.replicate 7 zeroBtDev

/-! ## General list helper lemmas -/

theorem getD_set_at {α : Type} (l : List α) (n : Nat) (a d : α) (h : n < l.length) :
    (l.set n a).getD n d = a := by
  simp [List.getD, List.getElem?_set_self, h]

theorem getD_set_other {α : Type} (l : List α) (m n : Nat) (a d : α) (h : m ≠ n) :
    (l.set m a).getD n d = l.getD n d := by
  simp [List.getD, List.getElem?_set_ne, h]

theorem getD_mem {α : Type} (l : List α) (n : Nat) (d : α) (h : n < l.length) :
    l.getD n d ∈ l := by
  rw [List.getD_eq_getElem l d h]
  exact List.getElem_mem h

theorem getD_append_lt {α : Type} (l l2 : List α) (n : Nat) (d : α) (h : n < l.length) :
    (l ++ l2).getD n d = l.getD n d :=
  List.getD_append l l2 d n h

theorem isSome_getElem_iff {α : Type} (l : List α) (n : Nat) :
    l[n]?.isSome = true ↔ n < l.length := by
  constructor
  · intro h
    by_contra hge
    rw [List.getElem?_eq_none (by omega)] at h
    simp at h
  · intro h
    rw [List.getElem?_eq_getElem h]
    rfl

theorem countP_set_of_match {α : Type} (p : α → Bool) :
    ∀ (l : List α) (n : Nat) (a d : α), n < l.length →
      p (l.getD n d) = true → p a = true →
      (l.set n a).countP p = l.countP p := by
  intro l
  induction l with
  | nil => intro n a d h _ _; simp at h
  | cons e rest ih =>
    intro n a d hn hold hnew
    cases n with
    | zero =>
      simp only [List.getD_cons_zero] at hold
      simp [List.countP_cons, hold, hnew]
    | succ n0 =>
      simp only [List.getD_cons_succ] at hold
      simp only [List.set_cons_succ, List.countP_cons]
      rw [ih n0 a d (by simpa using hn) hold hnew]

theorem countP_set_of_not_match {α : Type} (p : α → Bool) :
    ∀ (l : List α) (n : Nat) (a d : α), n < l.length →
      p (l.getD n d) = false → p a = true →
      (l.set n a).countP p = l.countP p + 1 := by
  intro l
  induction l with
  | nil => intro n a d h _ _; simp at h
  | cons e rest ih =>
    intro n a d hn hold hnew
    cases n with
    | zero =>
      simp only [List.getD_cons_zero] at hold
      simp [List.countP_cons, hold, hnew]
    | succ n0 =>
      simp only [List.getD_cons_succ] at hold
      simp only [List.set_cons_succ, List.countP_cons]
      rw [ih n0 a d (by simpa using hn) hold hnew]
      omega

/-! ## Link-key scan characterization -/

theorem lastMatchIdx_eq_none_iff (addr : List Nat) (l : List bt_hci_evt_link_key_notify) :
    lastMatchIdx addr l = none ↔ ∀ e ∈ l, e.bdaddr ≠ addr := by
  induction l with
  | nil => simp [lastMatchIdx]
  | cons e rest ih =>
    simp only [lastMatchIdx]
    cases hr : lastMatchIdx addr rest with
    | some m =>
      simp only [List.mem_cons]
      constructor
      · intro h; simp at h
      · intro hall
        have hnone : lastMatchIdx addr rest = none :=
          ih.mpr (fun x hx => hall x (Or.inr hx))
        rw [hnone] at hr
        simp at hr
    | none =>
      by_cases hm : e.bdaddr = addr
      · simp [hm]
      · simp only [hm, if_false, List.mem_cons]
        constructor
        · intro _ x hx
          rcases hx with rfl | hx
          · exact hm
          · exact ih.mp hr x hx
        · intro _; trivial

theorem lastMatchIdx_spec (addr : List Nat) :
    ∀ (l : List bt_hci_evt_link_key_notify) (m : Nat),
      lastMatchIdx addr l = some m →
      m < l.length ∧ (l.getD m zeroLinkKey).bdaddr = addr ∧
        ∀ j, m < j → j < l.length → (l.getD j zeroLinkKey).bdaddr ≠ addr := by
  intro l
  induction l with
  | nil => intro m h; simp [lastMatchIdx] at h
  | cons e rest ih =>
    intro m h
    simp only [lastMatchIdx] at h
    cases hr : lastMatchIdx addr rest with
    | some m0 =>
      rw [hr] at h
      simp only [Option.some.injEq] at h
      obtain ⟨h1, h2, h3⟩ := ih m0 hr
      subst h
      refine ⟨by simpa using Nat.succ_lt_succ h1, by simpa using h2, ?_⟩
      intro j hj hjl
      cases j with
      | zero => omega
      | succ j0 =>
        simp only [List.getD_cons_succ]
        exact h3 j0 (by omega) (by simpa using hjl)
    | none =>
      rw [hr] at h
      by_cases hm : e.bdaddr = addr
      · simp only [hm, if_true, Option.some.injEq] at h
        subst h
        refine ⟨by simp, by simpa using hm, ?_⟩
        intro j hj hjl
        cases j with
        | zero => omega
        | succ j0 =>
          simp only [List.getD_cons_succ]
          exact (lastMatchIdx_eq_none_iff addr rest).mp hr _
            (getD_mem rest j0 zeroLinkKey (by simpa using hjl))
      · simp [hm] at h

theorem lastMatchIdx_complete (addr : List Nat) :
    ∀ (l : List bt_hci_evt_link_key_notify) (m : Nat),
      m < l.length → (l.getD m zeroLinkKey).bdaddr = addr →
      (∀ j, m < j → j < l.length → (l.getD j zeroLinkKey).bdaddr ≠ addr) →
      lastMatchIdx addr l = some m := by
  intro l
  induction l with
  | nil => intro m hm _ _; simp at hm
  | cons e rest ih =>
    intro m hm hmatch hafter
    simp only [lastMatchIdx]
    cases m with
    | zero =>
      have hrest : lastMatchIdx addr rest = none := by
        rw [lastMatchIdx_eq_none_iff]
        intro x hx
        obtain ⟨j, hj, rfl⟩ := List.getElem_of_mem hx
        have h2 := hafter (j + 1) (by omega) (by simpa using Nat.succ_lt_succ hj)
        simp only [List.getD_cons_succ] at h2
        rw [List.getD_eq_getElem rest zeroLinkKey hj] at h2
        exact h2
      rw [hrest]
      simp only [List.getD_cons_zero] at hmatch
      simp [hmatch]
    | succ m0 =>
      have hr : lastMatchIdx addr rest = some m0 := by
        refine ih m0 (by simpa using hm) (by simpa using hmatch) ?_
        intro j hj hjl
        have := hafter (j + 1) (by omega) (by simpa using Nat.succ_lt_succ hjl)
        simpa using this
      rw [hr]

theorem keyScanIdx_eq_none (addr : List Nat) :
    ∀ (l : List bt_hci_evt_link_key_notify) (i acc : Nat),
      lastMatchIdx addr l = none → keyScanIdx addr l i acc = acc := by
  intro l
  induction l with
  | nil => intro i acc _; rfl
  | cons e rest ih =>
    intro i acc h
    simp only [lastMatchIdx] at h
    cases hr : lastMatchIdx addr rest with
    | some m => rw [hr] at h; simp at h
    | none =>
      rw [hr] at h
      by_cases hm : e.bdaddr = addr
      · rw [if_pos hm] at h; simp at h
      · simp only [keyScanIdx]
        rw [if_neg hm]
        exact ih (i + 1) acc hr

theorem keyScanIdx_eq_some (addr : List Nat) :
    ∀ (l : List bt_hci_evt_link_key_notify) (m i acc : Nat),
      lastMatchIdx addr l = some m → keyScanIdx addr l i acc = i + m := by
  intro l
  induction l with
  | nil => intro m i acc h; simp [lastMatchIdx] at h
  | cons e rest ih =>
    intro m i acc h
    simp only [lastMatchIdx] at h
    cases hr : lastMatchIdx addr rest with
    | some m0 =>
      rw [hr] at h
      simp only [Option.some.injEq] at h
      subst h
      simp only [keyScanIdx]
      rw [ih m0 (i + 1) _ hr]
      omega
    | none =>
      rw [hr] at h
      by_cases hm : e.bdaddr = addr
      · rw [if_pos hm] at h
        simp only [Option.some.injEq] at h
        subst h
        simp only [keyScanIdx]
        rw [if_pos hm, keyScanIdx_eq_none addr rest _ _ hr]
        omega
      · rw [if_neg hm] at h; simp at h

theorem keyLoadScan_eq_none (addr : List Nat) :
    ∀ (l : List bt_hci_evt_link_key_notify) (acc : List Nat × Int),
      lastMatchIdx addr l = none → keyLoadScan addr l acc = acc := by
  intro l
  induction l with
  | nil => intro acc _; rfl
  | cons e rest ih =>
    intro acc h
    simp only [lastMatchIdx] at h
    cases hr : lastMatchIdx addr rest with
    | some m => rw [hr] at h; simp at h
    | none =>
      rw [hr] at h
      by_cases hm : e.bdaddr = addr
      · rw [if_pos hm] at h; simp at h
      · simp only [keyLoadScan]
        rw [if_neg hm]
        exact ih acc hr

theorem keyLoadScan_eq_some (addr : List Nat) :
    ∀ (l : List bt_hci_evt_link_key_notify) (m : Nat) (acc : List Nat × Int),
      lastMatchIdx addr l = some m →
      keyLoadScan addr l acc = ((l.getD m zeroLinkKey).link_key, 0) := by
  intro l
  induction l with
  | nil => intro m acc h; simp [lastMatchIdx] at h
  | cons e rest ih =>
    intro m acc h
    simp only [lastMatchIdx] at h
    cases hr : lastMatchIdx addr rest with
    | some m0 =>
      rw [hr] at h
      simp only [Option.some.injEq] at h
      subst h
      simp only [keyLoadScan, List.getD_cons_succ]
      rw [ih m0 _ hr]
    | none =>
      rw [hr] at h
      by_cases hm : e.bdaddr = addr
      · rw [if_pos hm] at h
        simp only [Option.some.injEq] at h
        subst h
        simp only [keyLoadScan, List.getD_cons_zero]
        rw [if_pos hm, keyLoadScan_eq_none addr rest _ hr]
      · rw [if_neg hm] at h; simp at h

theorem lastMatchIdx_set_match (addr : List Nat) (l : List bt_hci_evt_link_key_notify)
    (m : Nat) (rec : bt_hci_evt_link_key_notify)
    (hrec : rec.bdaddr = addr) (hm : m < l.length)
    (h : lastMatchIdx addr l = some m ∨ lastMatchIdx addr l = none) :
    lastMatchIdx addr (l.set m rec) = some m := by
  apply lastMatchIdx_complete
  · simpa using hm
  · rw [getD_set_at _ _ _ _ hm]; exact hrec
  · intro j hj hjl
    rw [getD_set_other _ _ _ _ _ (by omega)]
    rcases h with hs | hn
    · exact (lastMatchIdx_spec addr l m hs).2.2 j hj (by simpa using hjl)
    · exact (lastMatchIdx_eq_none_iff addr l).mp hn _
        (getD_mem _ _ _ (by simpa using hjl))

theorem store_link_key_eq_of_scan (st : BtHostLinkKeys) (rec : bt_hci_evt_link_key_notify)
    (m : Nat) (h : keyScanIdx rec.bdaddr st.link_keys 0 st.index = m) :
    bt_host_store_link_key st rec =
      ⟨if m = st.index then (st.index + 1) % 16 else st.index, st.link_keys.set m rec⟩ := by
  subst h
  by_cases hc : keyScanIdx rec.bdaddr st.link_keys 0 st.index = st.index <;>
    simp [bt_host_store_link_key, hc]

/-- Shape of a single store: some index `m < 16` is written, `m` is
afterwards the last slot matching the record's address, `m` is either
the last previously-matching slot or (if none matched) the cursor, and
when the ring held at most one matching record it holds exactly one
afterwards. -/
theorem store_link_key_shape (st : BtHostLinkKeys) (rec : bt_hci_evt_link_key_notify)
    (hlen : st.link_keys.length = 16) (hidx : st.index < 16) :
    ∃ m, m < 16 ∧
      bt_host_store_link_key st rec =
        ⟨if m = st.index then (st.index + 1) % 16 else st.index, st.link_keys.set m rec⟩ ∧
      lastMatchIdx rec.bdaddr (st.link_keys.set m rec) = some m ∧
      (((st.link_keys.getD m zeroLinkKey).bdaddr = rec.bdaddr ∧
          ∀ j, m < j → j < 16 → (st.link_keys.getD j zeroLinkKey).bdaddr ≠ rec.bdaddr) ∨
        (m = st.index ∧
          ∀ j, j < 16 → (st.link_keys.getD j zeroLinkKey).bdaddr ≠ rec.bdaddr)) ∧
      (st.link_keys.countP (fun e => e.bdaddr == rec.bdaddr) ≤ 1 →
        (st.link_keys.set m rec).countP (fun e => e.bdaddr == rec.bdaddr) = 1) := by
  cases hL : lastMatchIdx rec.bdaddr st.link_keys with
  | some m =>
    have hscan : keyScanIdx rec.bdaddr st.link_keys 0 st.index = m := by
      rw [keyScanIdx_eq_some rec.bdaddr st.link_keys m 0 st.index hL]
      omega
    have hspec := lastMatchIdx_spec rec.bdaddr st.link_keys m hL
    refine ⟨m, by omega, store_link_key_eq_of_scan st rec m hscan,
      lastMatchIdx_set_match _ _ _ _ rfl hspec.1 (Or.inl hL),
      Or.inl ⟨hspec.2.1, fun j hj hjl => hspec.2.2 j hj (by omega)⟩, ?_⟩
    intro hdup
    have hpos : 0 < st.link_keys.countP (fun e => e.bdaddr == rec.bdaddr) :=
      List.countP_pos_iff.mpr
        ⟨st.link_keys.getD m zeroLinkKey, getD_mem _ _ _ hspec.1,
          by simp only [beq_iff_eq]; exact hspec.2.1⟩
    rw [countP_set_of_match _ st.link_keys m rec zeroLinkKey hspec.1
      (by simp only [beq_iff_eq]; exact hspec.2.1) (by simp)]
    omega
  | none =>
    have hscan : keyScanIdx rec.bdaddr st.link_keys 0 st.index = st.index :=
      keyScanIdx_eq_none rec.bdaddr st.link_keys 0 st.index hL
    have hnone := (lastMatchIdx_eq_none_iff rec.bdaddr st.link_keys).mp hL
    refine ⟨st.index, hidx, store_link_key_eq_of_scan st rec st.index hscan,
      lastMatchIdx_set_match _ _ _ _ rfl (by omega) (Or.inr hL),
      Or.inr ⟨rfl, fun j hjl => hnone _ (getD_mem _ _ _ (by omega))⟩, ?_⟩
    intro _
    have h0 : st.link_keys.countP (fun e => e.bdaddr == rec.bdaddr) = 0 :=
      List.countP_eq_zero.mpr (fun e he => by simp [hnone e he])
    rw [countP_set_of_not_match _ st.link_keys st.index rec zeroLinkKey (by omega)
      (by simp only [beq_eq_false_iff_ne, ne_eq]
          exact hnone _ (getD_mem st.link_keys st.index zeroLinkKey (by omega))) (by simp), h0]

/-- C3 (amended): behaviour of `bt_host_store_link_key` on the 16-entry
ring.  Some index `m < 16` is written: the last previously-matching slot
when the address is already present, otherwise the insertion cursor.
The cursor advances by one modulo 16 exactly when `m` equals the cursor
— in particular an in-place overwrite whose slot happens to sit at the
cursor also advances it (the correction to the original claim).
Storing the same record twice in a row writes the same ring index both
times, leaves exactly one matching record, and the second store leaves
the cursor unchanged. -/
theorem store_link_key_ring_behavior (st : BtHostLinkKeys)
    (rec : bt_hci_evt_link_key_notify)
    (hlen : st.link_keys.length = 16) (hidx : st.index < 16)
    (hdup : st.link_keys.countP (fun e => e.bdaddr == rec.bdaddr) ≤ 1) :
    ∃ m, m < 16 ∧
      (bt_host_store_link_key st rec).link_keys = st.link_keys.set m rec ∧
      (((st.link_keys.getD m zeroLinkKey).bdaddr = rec.bdaddr ∧
          ∀ j, m < j → j < 16 → (st.link_keys.getD j zeroLinkKey).bdaddr ≠ rec.bdaddr) ∨
        (m = st.index ∧
          ∀ j, j < 16 → (st.link_keys.getD j zeroLinkKey).bdaddr ≠ rec.bdaddr)) ∧
      (bt_host_store_link_key st rec).index =
        (if m = st.index then (st.index + 1) % 16 else st.index) ∧
      (bt_host_store_link_key (bt_host_store_link_key st rec) rec).link_keys =
        (bt_host_store_link_key st rec).link_keys.set m rec ∧
      (bt_host_store_link_key (bt_host_store_link_key st rec) rec).index =
        (bt_host_store_link_key st rec).index ∧
      (bt_host_store_link_key (bt_host_store_link_key st rec) rec).link_keys.countP
        (fun e => e.bdaddr == rec.bdaddr) = 1 := by
  obtain ⟨m, hm16, heq1, hlast1, hdisj, hcnt⟩ := store_link_key_shape st rec hlen hidx
  have hmlen : m < st.link_keys.length := by omega
  have hscan2 : keyScanIdx rec.bdaddr (st.link_keys.set m rec) 0
      (if m = st.index then (st.index + 1) % 16 else st.index) = m := by
    rw [keyScanIdx_eq_some rec.bdaddr _ m _ _ hlast1]
    omega
  have hne : m ≠ (if m = st.index then (st.index + 1) % 16 else st.index) := by
    by_cases hcase : m = st.index
    · rw [if_pos hcase]; omega
    · rw [if_neg hcase]; exact hcase
  have heq2 : bt_host_store_link_key (bt_host_store_link_key st rec) rec =
      ⟨if m = st.index then (st.index + 1) % 16 else st.index,
        (st.link_keys.set m rec).set m rec⟩ := by
    rw [heq1, store_link_key_eq_of_scan _ rec m hscan2, if_neg hne]
  have hsetlen : m < (st.link_keys.set m rec).length := by
    rw [List.length_set]; exact hmlen
  refine ⟨m, hm16, by rw [heq1], hdisj, by rw [heq1], by rw [heq2, heq1],
    by rw [heq2, heq1], ?_⟩
  rw [heq2]
  have hstep : ((st.link_keys.set m rec).set m rec).countP
      (fun e => e.bdaddr == rec.bdaddr) =
      (st.link_keys.set m rec).countP (fun e => e.bdaddr == rec.bdaddr) := by
    refine countP_set_of_match _ _ m rec zeroLinkKey hsetlen ?_ (by simp)
    rw [getD_set_at _ _ _ _ hmlen]
    simp
  rw [hstep]
  exact hcnt hdup

/-- C3 counterexample: with the ring cursor at 0 and a record for the
same address already present (at slot 0), storing that address again
advances the cursor to 1 — refuting the claim that the cursor never
advances when a record with the same address already exists. -/
theorem store_link_key_cursor_counterexample :
    lkCex.index = 0 ∧
    (lkCex.link_keys.getD 0 zeroLinkKey).bdaddr = recA.bdaddr ∧
    (bt_host_store_link_key lkCex recA).index = 1 := by decide

/-- Witness for C3's amended theorem at a concrete empty ring. -/
theorem store_link_key_ring_behavior_witness :
    ∃ m, m < 16 ∧
      (bt_host_store_link_key lk0 recA).link_keys = lk0.link_keys.set m recA ∧
      (((lk0.link_keys.getD m zeroLinkKey).bdaddr = recA.bdaddr ∧
          ∀ j, m < j → j < 16 → (lk0.link_keys.getD j zeroLinkKey).bdaddr ≠ recA.bdaddr) ∨
        (m = lk0.index ∧
          ∀ j, j < 16 → (lk0.link_keys.getD j zeroLinkKey).bdaddr ≠ recA.bdaddr)) ∧
      (bt_host_store_link_key lk0 recA).index =
        (if m = lk0.index then (lk0.index + 1) % 16 else lk0.index) ∧
      (bt_host_store_link_key (bt_host_store_link_key lk0 recA) recA).link_keys =
        (bt_host_store_link_key lk0 recA).link_keys.set m recA ∧
      (bt_host_store_link_key (bt_host_store_link_key lk0 recA) recA).index =
        (bt_host_store_link_key lk0 recA).index ∧
      (bt_host_store_link_key (bt_host_store_link_key lk0 recA) recA).link_keys.countP
        (fun e => e.bdaddr == recA.bdaddr) = 1 :=
  store_link_key_ring_behavior lk0 recA (by decide) (by decide) (by decide)

/-- C6: `bt_host_load_link_key` behaviour.  An address present in no
ring slot yields the failure sentinel `-1` with the output key buffer
unmodified; if slot `m` matches and no later slot does, the scan
returns slot `m`'s key (last match wins); an address stored with key
`k1` and then overwritten with key `k2` loads back exactly `k2`. -/
theorem load_link_key_spec (st : BtHostLinkKeys) (addr out0 : List Nat)
    (hlen : st.link_keys.length = 16) (hidx : st.index < 16) :
    ((∀ e ∈ st.link_keys, e.bdaddr ≠ addr) →
        bt_host_load_link_key st addr out0 = (out0, -1)) ∧
    (∀ m, m < 16 → (st.link_keys.getD m zeroLinkKey).bdaddr = addr →
        (∀ j, m < j → j < 16 → (st.link_keys.getD j zeroLinkKey).bdaddr ≠ addr) →
        bt_host_load_link_key st addr out0 =
          ((st.link_keys.getD m zeroLinkKey).link_key, 0)) ∧
    (∀ k1 k2 : List Nat,
        bt_host_load_link_key
          (bt_host_store_link_key (bt_host_store_link_key st ⟨addr, k1⟩) ⟨addr, k2⟩)
          addr out0 = (k2, 0)) := by
  refine ⟨?_, ?_, ?_⟩
  · intro hnone
    have hL : lastMatchIdx addr st.link_keys = none :=
      (lastMatchIdx_eq_none_iff addr st.link_keys).mpr hnone
    unfold bt_host_load_link_key
    exact keyLoadScan_eq_none addr st.link_keys _ hL
  · intro m hm hmatch hafter
    have hL : lastMatchIdx addr st.link_keys = some m :=
      lastMatchIdx_complete addr st.link_keys m (by omega) hmatch
        (fun j hj hjl => hafter j hj (by omega))
    unfold bt_host_load_link_key
    exact keyLoadScan_eq_some addr st.link_keys m _ hL
  · intro k1 k2
    obtain ⟨m1, hm1, heqA, hlastA, _, _⟩ :=
      store_link_key_shape st ⟨addr, k1⟩ hlen hidx
    have hlenA : (st.link_keys.set m1 ⟨addr, k1⟩).length = 16 := by
      rw [List.length_set]; exact hlen
    have hscanB : keyScanIdx addr (st.link_keys.set m1 ⟨addr, k1⟩) 0
        (if m1 = st.index then (st.index + 1) % 16 else st.index) = m1 := by
      rw [keyScanIdx_eq_some addr _ m1 _ _ hlastA]
      omega
    have heqB : bt_host_store_link_key (bt_host_store_link_key st ⟨addr, k1⟩) ⟨addr, k2⟩ =
        ⟨if m1 = (if m1 = st.index then (st.index + 1) % 16 else st.index)
            then ((if m1 = st.index then (st.index + 1) % 16 else st.index) + 1) % 16
            else (if m1 = st.index then (st.index + 1) % 16 else st.index),
          (st.link_keys.set m1 ⟨addr, k1⟩).set m1 ⟨addr, k2⟩⟩ := by
      rw [heqA, store_link_key_eq_of_scan _ ⟨addr, k2⟩ m1 hscanB]
    have hlastB : lastMatchIdx addr
        ((st.link_keys.set m1 ⟨addr, k1⟩).set m1 ⟨addr, k2⟩) = some m1 :=
      lastMatchIdx_set_match addr _ m1 ⟨addr, k2⟩ rfl (by omega) (Or.inl hlastA)
    rw [heqB]
    unfold bt_host_load_link_key
    rw [keyLoadScan_eq_some addr _ m1 _ hlastB,
      getD_set_at _ _ _ _ (by rw [List.length_set]; omega)]

/-- Witness for C6 at a concrete ring: never-stored lookup misses, and a
store-overwrite-load round trip returns the newest key. -/
theorem load_link_key_spec_witness :
    bt_host_load_link_key lk0 cexAddr [] = ([], -1) ∧
    bt_host_load_link_key
      (bt_host_store_link_key (bt_host_store_link_key lk0 ⟨cexAddr, keyA⟩)
        ⟨cexAddr, keyB⟩) cexAddr [] = (keyB, 0) :=
  ⟨(load_link_key_spec lk0 cexAddr [] (by decide) (by decide)).1 (by decide),
    (load_link_key_spec lk0 cexAddr [] (by decide) (by decide)).2.2 keyA keyB⟩

/-! ## Device session table lemmas -/

theorem getNewDevScan_eq_none_iff :
    ∀ (devs : List BtDev) (i : Nat),
      getNewDevScan devs i = none ↔
        ∀ d ∈ devs, d.flags.testBit BT_DEV_DEVICE_FOUND = true := by
  intro devs
  induction devs with
  | nil => intro i; simp [getNewDevScan]
  | cons d rest ih =>
    intro i
    simp only [getNewDevScan]
    by_cases hd : d.flags.testBit BT_DEV_DEVICE_FOUND
    · rw [if_pos hd]
      constructor
      · intro h e he
        rw [List.mem_cons] at he
        rcases he with rfl | he
        · exact hd
        · exact ((ih (i + 1)).mp h) e he
      · intro h
        exact (ih (i + 1)).mpr (fun e he => h e (List.mem_cons_of_mem _ he))
    · rw [if_neg hd]
      constructor
      · intro h; simp at h
      · intro h
        exact absurd (h d (List.mem_cons_self _ _)) hd

theorem getNewDevScan_eq_some :
    ∀ (devs : List BtDev) (i j : Nat),
      getNewDevScan devs i = some j →
      i ≤ j ∧ j - i < devs.length ∧
        (devs.getD (j - i) zeroBtDev).flags.testBit BT_DEV_DEVICE_FOUND = false ∧
        ∀ k, k < j - i → (devs.getD k zeroBtDev).flags.testBit BT_DEV_DEVICE_FOUND = true := by
  intro devs
  induction devs with
  | nil => intro i j h; simp [getNewDevScan] at h
  | cons d rest ih =>
    intro i j h
    simp only [getNewDevScan] at h
    by_cases hd : d.flags.testBit BT_DEV_DEVICE_FOUND
    · rw [if_pos hd] at h
      obtain ⟨h1, h2, h3, h4⟩ := ih (i + 1) j h
      have hij : i < j := by omega
      refine ⟨by omega, by simp; omega, ?_, ?_⟩
      · have : j - i = (j - (i + 1)) + 1 := by omega
        rw [this, List.getD_cons_succ]
        exact h3
      · intro k hk
        cases k with
        | zero => simpa using hd
        | succ k0 =>
          rw [List.getD_cons_succ]
          exact h4 k0 (by omega)
    · rw [if_neg hd] at h
      simp only [Option.some.injEq] at h
      subst h
      refine ⟨Nat.le_refl i, by simp, ?_, ?_⟩
      · simp only [Nat.sub_self, List.getD_cons_zero]
        simpa using hd
      · intro k hk; omega

theorem getNewDevScan_eq_some_of_first :
    ∀ (devs : List BtDev) (i m : Nat),
      m < devs.length →
      (devs.getD m zeroBtDev).flags.testBit BT_DEV_DEVICE_FOUND = false →
      (∀ k, k < m → (devs.getD k zeroBtDev).flags.testBit BT_DEV_DEVICE_FOUND = true) →
      getNewDevScan devs i = some (i + m) := by
  intro devs
  induction devs with
  | nil => intro i m hm; simp at hm
  | cons d rest ih =>
    intro i m hm hfree hbefore
    simp only [getNewDevScan]
    cases m with
    | zero =>
      simp only [List.getD_cons_zero] at hfree
      rw [if_neg (by simp [hfree])]
      simp
    | succ m0 =>
      have hd : d.flags.testBit BT_DEV_DEVICE_FOUND = true := by
        have := hbefore 0 (by omega)
        simpa using this
      rw [if_pos hd]
      have : i + (m0 + 1) = (i + 1) + m0 := by omega
      rw [this]
      refine ih (i + 1) m0 (by simpa using hm) ?_ ?_
      · have := hfree; simpa using this
      · intro k hk
        have := hbefore (k + 1) (by omega)
        simpa using this

/-- C7: `bt_host_get_new_dev` returns the first slot whose
`BT_DEV_DEVICE_FOUND` flag is clear — never a slot currently marked
active — and `none` exactly when every slot is marked; and after
`bt_host_reset_dev` zeroes slot `i` (session and adapter buffer), an
immediately following allocation returns that same slot provided the
slots before it are still marked. -/
theorem get_new_dev_spec (devs : List BtDev) (adata : List AdapterData) (i : Nat)
    (hlen : devs.length = 7) :
    (∀ j, bt_host_get_new_dev devs = some j →
        j < 7 ∧ (devs.getD j zeroBtDev).flags.testBit BT_DEV_DEVICE_FOUND = false ∧
        ∀ k, k < j → (devs.getD k zeroBtDev).flags.testBit BT_DEV_DEVICE_FOUND = true) ∧
    (bt_host_get_new_dev devs = none →
        ∀ d ∈ devs, d.flags.testBit BT_DEV_DEVICE_FOUND = true) ∧
    (i < 7 →
        (∀ k, k < i → (devs.getD k zeroBtDev).flags.testBit BT_DEV_DEVICE_FOUND = true) →
        bt_host_get_new_dev (bt_host_reset_dev devs adata i).1 = some i) := by
  refine ⟨?_, ?_, ?_⟩
  · intro j h
    obtain ⟨h1, h2, h3, h4⟩ := getNewDevScan_eq_some devs 0 j h
    rw [Nat.sub_zero] at h3 h4
    exact ⟨by omega, h3, h4⟩
  · intro h
    exact (getNewDevScan_eq_none_iff devs 0).mp h
  · intro hi hbefore
    have hset : (bt_host_reset_dev devs adata i).1 = devs.set i zeroBtDev := rfl
    rw [hset]
    have h0 : getNewDevScan (devs.set i zeroBtDev) 0 = some (0 + i) := by
      refine getNewDevScan_eq_some_of_first (devs.set i zeroBtDev) 0 i
        (by rw [List.length_set]; omega) ?_ ?_
      · rw [getD_set_at devs i zeroBtDev zeroBtDev (by omega)]
        simp [zeroBtDev]
      · intro k hk
        rw [getD_set_other devs i k zeroBtDev zeroBtDev (by omega)]
        exact hbefore k hk
    unfold bt_host_get_new_dev
    rw [h0]
    simp

/-- Witness for C7 at a concrete 7-slot table: allocation picks the
first free slot 3 (skipping marked slots), and resetting marked slot 2
makes the next allocation return slot 2. -/
theorem get_new_dev_spec_witness :
    (3 < 7 ∧ (w7devs.getD 3 zeroBtDev).flags.testBit BT_DEV_DEVICE_FOUND = false ∧
      ∀ k, k < 3 → (w7devs.getD k zeroBtDev).flags.testBit BT_DEV_DEVICE_FOUND = true) ∧
    bt_host_get_new_dev (bt_host_reset_dev w7devs [] 2).1 = some 2 :=
  ⟨(get_new_dev_spec w7devs [] 2 (by decide)).1 3 (by decide),
    (get_new_dev_spec w7devs [] 2 (by decide)).2.2 (by decide) (by decide)⟩

/-- C10: the feedback relay resolves `&bt_dev[fb_data[0]]` with the
blob's first byte used directly as the index: with the 7-slot table the
access is in bounds exactly when that byte is less than 7, the resolved
session is precisely the indexed slot, and resolution succeeds even
when no session in the table is marked active (no activity check). -/
theorem fb_resolve_spec (devs : List BtDev) (fb : List Nat)
    (hlen : devs.length = 7) :
    ((bt_fb_resolve devs fb).isSome ↔ fb.getD 0 0 < 7) ∧
    (∀ d, bt_fb_resolve devs fb = some d → devs.getD (fb.getD 0 0) zeroBtDev = d) ∧
    ((∀ d ∈ devs, d.flags.testBit BT_DEV_DEVICE_FOUND = false) →
      fb.getD 0 0 < 7 → (bt_fb_resolve devs fb).isSome) := by
  refine ⟨?_, ?_, ?_⟩
  · unfold bt_fb_resolve
    rw [List.get?_eq_getElem?, isSome_getElem_iff, hlen]
  · intro d h
    unfold bt_fb_resolve at h
    rw [List.get?_eq_getElem?] at h
    have hlt : fb.getD 0 0 < devs.length := by
      by_contra hge
      rw [List.getElem?_eq_none (by omega)] at h
      simp at h
    rw [List.getElem?_eq_getElem hlt, Option.some.injEq] at h
    rw [List.getD_eq_getElem devs zeroBtDev hlt]
    exact h
  · intro _ hlt
    unfold bt_fb_resolve
    rw [List.get?_eq_getElem?, isSome_getElem_iff, hlen]
    exact hlt

/-- Witness for C10 at a concrete all-inactive table and a blob whose
first byte is 3. -/
theorem fb_resolve_spec_witness :
    ((bt_fb_resolve w10devs [3]).isSome ↔ ([3] : List Nat).getD 0 0 < 7) ∧
    (∀ d, bt_fb_resolve w10devs [3] = some d →
      w10devs.getD (([3] : List Nat).getD 0 0) zeroBtDev = d) ∧
    ((∀ d ∈ w10devs, d.flags.testBit BT_DEV_DEVICE_FOUND = false) →
      ([3] : List Nat).getD 0 0 < 7 → (bt_fb_resolve w10devs [3]).isSome) :=
  fb_resolve_spec w10devs [3] (by decide)

/-! ## Bridge claims -/

/-- C2 counterexample: with the report counter at 0 and the session not
initialized, the first `bt_host_bridge` call does not invoke the
adapter bridge and leaves the counter at 1; the claim asserts the
second call then invokes it, but with the counter at 1 the `> 1` test
is false and the second call does not invoke the bridge either. -/
theorem bridge_second_call_counterexample :
    zeroAdapterData.report_cnt = 0 ∧
    zeroAdapterData.flags.testBit BT_INIT = false ∧
    (bt_host_bridge w2dev 1 [9] 1 zeroAdapterData).2 = false ∧
    (bt_host_bridge w2dev 1 [9] 1 zeroAdapterData).1.report_cnt = 1 ∧
    (bt_host_bridge w2dev 1 [9] 1
      (bt_host_bridge w2dev 1 [9] 1 zeroAdapterData).1).2 = false := by decide

/-- C2 (amended): with the counter at 0 and the session uninitialized,
the first bridge call performs no adapter-bridge invocation and sets
the counter to 1; the second call (counter now 1) still performs none,
because `1 > 1` is false, and sets the counter to 2; the invocation
first occurs on the third call, once more than one report has been
observed. -/
theorem bridge_bootstrap_behavior (dev : BtDev) (rid : Nat) (dat : List Nat)
    (len : Nat) (ad : AdapterData)
    (htype : dev.type ≠ HID_GENERIC)
    (hinit : ad.flags.testBit BT_INIT = false)
    (hcnt : ad.report_cnt = 0) :
    (bt_host_bridge dev rid dat len ad).2 = false ∧
    (bt_host_bridge dev rid dat len ad).1.report_cnt = 1 ∧
    (bt_host_bridge dev rid dat len
        (bt_host_bridge dev rid dat len ad).1).2 = false ∧
    (bt_host_bridge dev rid dat len
        (bt_host_bridge dev rid dat len ad).1).1.report_cnt = 2 ∧
    (bt_host_bridge dev rid dat len
        (bt_host_bridge dev rid dat len
          (bt_host_bridge dev rid dat len ad).1).1).2 = true := by
  have h1 : bt_host_bridge dev rid dat len ad =
      ({ ad with report_cnt := 1 }, false) := by
    simp [bt_host_bridge, htype, hinit, hcnt]
  have h2 : bt_host_bridge dev rid dat len ({ ad with report_cnt := 1 }) =
      ({ ad with report_cnt := 2 }, false) := by
    simp [bt_host_bridge, htype, hinit]
  have h3 : (bt_host_bridge dev rid dat len ({ ad with report_cnt := 2 })).2 = true := by
    simp [bt_host_bridge, htype]
  refine ⟨by rw [h1], by rw [h1], by rw [h1, h2], by rw [h1, h2], ?_⟩
  rw [h1, h2]
  exact h3

/-- Witness for C2's amended theorem at a concrete session. -/
theorem bridge_bootstrap_behavior_witness :
    (bt_host_bridge w2dev 1 [9] 1 zeroAdapterData).2 = false ∧
    (bt_host_bridge w2dev 1 [9] 1 zeroAdapterData).1.report_cnt = 1 ∧
    (bt_host_bridge w2dev 1 [9] 1
        (bt_host_bridge w2dev 1 [9] 1 zeroAdapterData).1).2 = false ∧
    (bt_host_bridge w2dev 1 [9] 1
        (bt_host_bridge w2dev 1 [9] 1 zeroAdapterData).1).1.report_cnt = 2 ∧
    (bt_host_bridge w2dev 1 [9] 1
        (bt_host_bridge w2dev 1 [9] 1
          (bt_host_bridge w2dev 1 [9] 1 zeroAdapterData).1).1).2 = true :=
  bridge_bootstrap_behavior w2dev 1 [9] 1 zeroAdapterData (by decide) (by decide)
    (by decide)

/-- C8 counterexample: for a `HID_GENERIC` session whose report table
does not contain the input's report id, `bt_host_bridge` returns before
the counter increment, so the per-session report counter does not
increment on that call — refuting "increments by exactly one on every
call". -/
theorem bridge_discard_counterexample :
    zeroBtDev.type = HID_GENERIC ∧
    (∀ r ∈ w8ad.reports, r.id ≠ 9) ∧
    w8ad.report_cnt = 5 ∧
    (bt_host_bridge zeroBtDev 9 [1, 2] 2 w8ad).1.report_cnt = 5 := by decide

/-- C8 (amended): the per-session report counter increments by exactly
one on every call that is not discarded, regardless of whether the
adapter bridge fired; a `HID_GENERIC` input whose report id is absent
from the report table is discarded with no state change at all, in
particular without the counter increment. -/
theorem bridge_report_cnt_behavior (dev : BtDev) (rid : Nat) (dat : List Nat)
    (len : Nat) (ad : AdapterData) :
    (dev.type = HID_GENERIC → findReport rid ad.reports 0 = none →
        bt_host_bridge dev rid dat len ad = (ad, false)) ∧
    (dev.type ≠ HID_GENERIC →
        (bt_host_bridge dev rid dat len ad).1.report_cnt = ad.report_cnt + 1) ∧
    (∀ i r, dev.type = HID_GENERIC → findReport rid ad.reports 0 = some (i, r) →
        (bt_host_bridge dev rid dat len ad).1.report_cnt = ad.report_cnt + 1) := by
  refine ⟨?_, ?_, ?_⟩
  · intro h hf
    simp [bt_host_bridge, h, hf]
  · intro h
    simp only [bt_host_bridge, if_neg h]
    split <;> rfl
  · intro i r h hf
    simp only [bt_host_bridge, if_pos h, hf]
    split <;> rfl

/-- Witness for C8's amended theorem: a discarded generic report, a
non-generic report, and a recognized generic report. -/
theorem bridge_report_cnt_behavior_witness :
    bt_host_bridge zeroBtDev 9 [1, 2] 2 w8ad = (w8ad, false) ∧
    (bt_host_bridge w2dev 1 [9] 1 w8ad).1.report_cnt = w8ad.report_cnt + 1 ∧
    (bt_host_bridge zeroBtDev 2 [9] 1 w8ad).1.report_cnt = w8ad.report_cnt + 1 :=
  ⟨(bridge_report_cnt_behavior zeroBtDev 9 [1, 2] 2 w8ad).1 (by decide) (by decide),
    (bridge_report_cnt_behavior w2dev 1 [9] 1 w8ad).2.1 (by decide),
    (bridge_report_cnt_behavior zeroBtDev 2 [9] 1 w8ad).2.2 1 ⟨2, 3⟩ (by decide)
      (by decide)⟩

/-! ## Transmit queue claims -/

/-- Auxiliary for C4: while the ready gate is down and no `onReady`
event occurs, the drain task never sends. -/
theorem txTrace_no_send_of_not_ready (q : List (List Nat)) :
    ∀ (es : List TxEvent), TxEvent.onReady ∉ es →
      ∀ a ∈ txTrace ⟨false, q⟩ es, ∀ r, a ≠ TxAction.send r := by
  intro es
  induction es with
  | nil => intro _ a ha; simp [txTrace] at ha
  | cons e rest ih =>
    intro hnr a ha
    cases e with
    | onReady => exact absurd (List.mem_cons_self _ _) hnr
    | loopIter =>
      have hstep : txEventStep ⟨false, q⟩ TxEvent.loopIter = (⟨false, q⟩, TxAction.idle) := rfl
      simp only [txTrace, hstep, List.mem_cons] at ha
      rcases ha with rfl | ha
      · intro r; simp
      · exact ih (fun hm => hnr (List.mem_cons_of_mem _ hm)) a ha

/-- C4: the transmit drain enforces single-outstanding-packet flow
control: with the ready gate down an iteration pops nothing; a delay
marker (reserved first byte `0xFF`) sleeps for the requested delay
without sending and without touching the gate; a real packet is sent
with the gate cleared in the same step; `bt_host_tx_pkt_ready`
(the adapter's `onReady`) re-arms the gate; and from a cleared gate no
send ever happens before an `onReady` event. -/
theorem tx_single_outstanding (q rest : List (List Nat)) (p w : List Nat)
    (es : List TxEvent)
    (hp : p.getD 0 0 ≠ 255) (hw : w.getD 0 0 = 255)
    (hnr : TxEvent.onReady ∉ es) :
    bt_tx_step ⟨false, q⟩ = (⟨false, q⟩, .idle) ∧
    bt_tx_step ⟨true, w :: rest⟩ = (⟨true, rest⟩, .sleep (w.getD 1 0)) ∧
    bt_tx_step ⟨true, p :: rest⟩ = (⟨false, rest⟩, .send p) ∧
    (bt_host_tx_pkt_ready ⟨false, q⟩).ready = true ∧
    (∀ a ∈ txTrace ⟨false, q⟩ es, ∀ r, a ≠ TxAction.send r) := by
  refine ⟨rfl, ?_, ?_, rfl, txTrace_no_send_of_not_ready q es hnr⟩
  · have hstep : bt_tx_step ⟨true, w :: rest⟩ =
        if w.getD 0 0 = 255 then (⟨true, rest⟩, .sleep (w.getD 1 0))
        else (⟨false, rest⟩, .send w) := rfl
    rw [hstep, if_pos hw]
  · have hstep : bt_tx_step ⟨true, p :: rest⟩ =
        if p.getD 0 0 = 255 then (⟨true, rest⟩, .sleep (p.getD 1 0))
        else (⟨false, rest⟩, .send p) := rfl
    rw [hstep, if_neg hp]

/-- Witness for C4 at concrete queues and a two-iteration trace. -/
theorem tx_single_outstanding_witness :
    bt_tx_step ⟨false, []⟩ = (⟨false, []⟩, .idle) ∧
    bt_tx_step ⟨true, [[255, 50]]⟩ = (⟨true, []⟩, .sleep ([255, 50].getD 1 0)) ∧
    bt_tx_step ⟨true, [[1, 2]]⟩ = (⟨false, []⟩, .send [1, 2]) ∧
    (bt_host_tx_pkt_ready ⟨false, []⟩).ready = true ∧
    (∀ a ∈ txTrace ⟨false, []⟩ [TxEvent.loopIter, TxEvent.loopIter],
      ∀ r, a ≠ TxAction.send r) :=
  tx_single_outstanding [] [] [1, 2] [255, 50]
    [TxEvent.loopIter, TxEvent.loopIter] (by decide) (by decide) (by decide)

/-- C9: the synthetic wait packet stores the millisecond count in a
single byte, so the drain task sleeps exactly the requested
milliseconds reduced modulo 256; requests of 256 ms or more are
silently truncated. -/
theorem wait_pkt_truncation (ms : Nat) (rest : List (List Nat)) :
    bt_tx_step ⟨true, bt_host_q_wait_pkt ms :: rest⟩ =
      (⟨true, rest⟩, .sleep (ms % 256)) ∧
    (256 ≤ ms → ms % 256 ≠ ms) := by
  constructor
  · rfl
  · intro h
    have : ms % 256 < 256 := Nat.mod_lt ms (by omega)
    omega

/-- Witness for C9: a 300 ms request sleeps only 44 ms. -/
theorem wait_pkt_truncation_witness :
    bt_tx_step ⟨true, [bt_host_q_wait_pkt 300]⟩ = (⟨true, []⟩, .sleep (300 % 256)) ∧
    300 % 256 ≠ 300 :=
  ⟨(wait_pkt_truncation 300 []).1, (wait_pkt_truncation 300 []).2 (by decide)⟩

/-! ## ACL reassembler lemmas -/

theorem rd16_append (l l2 : List Nat) (off : Nat) (h : off + 1 < l.length) :
    rd16 (l ++ l2) off = rd16 l off := by
  unfold rd16
  rw [getD_append_lt l l2 off 0 (by omega), getD_append_lt l l2 (off + 1) 0 h]

theorem usub32_eq (a b : Nat) (hb : b ≤ a) (ha : a < 4294967296) :
    usub32 a b = a - b := by
  unfold usub32
  omega

theorem cons_replicate_append {α : Type} (n : Nat) (a x : α) (hn : 0 < n) :
    a :: (List.replicate (n - 1) a ++ [x]) = List.replicate n a ++ [x] := by
  cases n with
  | zero => omega
  | succ n0 => simp [List.replicate_succ]

theorem aclRun_nil (devs : List BtDev) (st : FragState) :
    aclRun devs st [] = (st, []) := rfl

theorem aclRun_cons (devs : List BtDev) (st : FragState) (p : List Nat)
    (rest : List (List Nat)) :
    aclRun devs st (p :: rest) =
      ((aclRun devs (bt_host_acl_hdlr devs st p p.length).1 rest).1,
        (bt_host_acl_hdlr devs st p p.length).2 ::
          (aclRun devs (bt_host_acl_hdlr devs st p p.length).1 rest).2) := rfl

/-- One handler step on a continuation fragment of a reassembly whose
buffer already holds exactly its `fragOffset` bytes. -/
theorem acl_hdlr_cont_step (devs : List BtDev) (acc : List Nat) (size : Nat)
    (c : List Nat) (hc : wfCont c) :
    bt_host_acl_hdlr devs ⟨acc, acc.length, size⟩ c c.length =
      (if acc.length + acl_len_field c < size then
        (⟨acc ++ c.drop 5, acc.length + acl_len_field c, size⟩, none)
      else
        startCheckAndRoute (bt_host_get_dev_from_handle devs (acl_handle_field c))
          ⟨acc ++ c.drop 5, acc.length + acl_len_field c, size⟩
          (acc ++ c.drop 5) size) := by
  obtain ⟨hfl, hpos, hlen⟩ := hc
  have hconst : BT_HCI_H4_HDR_SIZE + BT_HCI_ACL_HDR_SIZE = 5 := rfl
  have hdrop : (c.drop 5).length = acl_len_field c := by
    rw [List.length_drop]
    rw [hconst] at hlen
    omega
  have htake : (c.drop 5).take (acl_len_field c) = c.drop 5 := by
    rw [← hdrop, List.take_length]
  simp only [bt_host_acl_hdlr, if_pos hfl, hconst]
  rw [List.take_length, htake]

/-- One handler step on a fragmented start packet: the scratch state is
overwritten and nothing is dispatched. -/
theorem acl_hdlr_start_step (devs : List BtDev) (st : FragState) (s : List Nat)
    (len : Nat)
    (hflags : bt_acl_flags (acl_handle_field s) = BT_ACL_START)
    (hfrag : usub32 len HDR_OVERHEAD < l2cap_len_field s) :
    bt_host_acl_hdlr devs st s len =
      (⟨s.take len, len, l2cap_len_field s + 9⟩, none) := by
  have hnc : bt_acl_flags (acl_handle_field s) ≠ BT_ACL_CONT := by
    rw [hflags]; decide
  simp only [bt_host_acl_hdlr, if_neg hnc, startCheckAndRoute,
    if_pos (And.intro hflags hfrag)]
  rfl

/-- Invariant of the continuation phase: starting from a scratch buffer
holding exactly its offset's bytes with a start-flagged header, feeding
well-formed continuation fragments whose payloads exactly fill the
remaining target produces no dispatch until the last fragment, which
dispatches the concatenated frame once. -/
theorem aclRun_cont_complete (devs : List BtDev) :
    ∀ (conts : List (List Nat)) (acc : List Nat) (size : Nat),
      conts ≠ [] →
      (∀ c ∈ conts, wfCont c) →
      9 ≤ acc.length →
      bt_acl_flags (acl_handle_field acc) = BT_ACL_START →
      size = l2cap_len_field acc + 9 →
      l2cap_len_field acc < 65536 →
      acc.length + (conts.map acl_len_field).sum = size →
      ∃ rt, aclRun devs ⟨acc, acc.length, size⟩ conts =
        (⟨acc ++ (conts.map (fun c => c.drop 5)).flatten, size, size⟩,
          List.replicate (conts.length - 1) none ++
            [some ⟨acc ++ (conts.map (fun c => c.drop 5)).flatten, size, rt⟩]) := by
  intro conts
  induction conts with
  | nil => intro acc size hne _ _ _ _ _ _; exact absurd rfl hne
  | cons c rest ih =>
    intro acc size _ hwf h9 hflags hsize hL hsum
    have hstep := acl_hdlr_cont_step devs acc size c (hwf c (List.mem_cons_self _ _))
    obtain ⟨hcfl, hcpos, hclen⟩ := hwf c (List.mem_cons_self _ _)
    have hconst : BT_HCI_H4_HDR_SIZE + BT_HCI_ACL_HDR_SIZE = 5 := rfl
    have hbuflen : (acc ++ c.drop 5).length = acc.length + acl_len_field c := by
      rw [List.length_append, List.length_drop]
      rw [hconst] at hclen
      omega
    have hhandle : acl_handle_field (acc ++ c.drop 5) = acl_handle_field acc := by
      unfold acl_handle_field
      exact rd16_append acc (c.drop 5) 1 (by omega)
    have hlenf : l2cap_len_field (acc ++ c.drop 5) = l2cap_len_field acc := by
      unfold l2cap_len_field
      exact rd16_append acc (c.drop 5) 5 (by omega)
    cases rest with
    | nil =>
      have hsum1 : acc.length + acl_len_field c = size := by
        simpa using hsum
      have hnotlt : ¬ acc.length + acl_len_field c < size := by omega
      have hnostart : ¬ (bt_acl_flags (acl_handle_field (acc ++ c.drop 5)) = BT_ACL_START ∧
          usub32 size HDR_OVERHEAD < l2cap_len_field (acc ++ c.drop 5)) := by
        intro hcontra
        have h2 := hcontra.2
        rw [hlenf] at h2
        have h95 : HDR_OVERHEAD = 9 := rfl
        rw [h95, usub32_eq size 9 (by omega) (by omega)] at h2
        omega
      have hfin : bt_host_acl_hdlr devs ⟨acc, acc.length, size⟩ c c.length =
          (⟨acc ++ c.drop 5, acc.length + acl_len_field c, size⟩,
            some ⟨acc ++ c.drop 5, size,
              routeCid (bt_host_get_dev_from_handle devs (acl_handle_field c))
                (l2cap_cid_field (acc ++ c.drop 5))⟩) := by
        rw [hstep, if_neg hnotlt]
        simp only [startCheckAndRoute, if_neg hnostart]
      refine ⟨routeCid (bt_host_get_dev_from_handle devs (acl_handle_field c))
        (l2cap_cid_field (acc ++ c.drop 5)), ?_⟩
      rw [aclRun_cons, hfin]
      simp [aclRun, hsum1]
    | cons r rs =>
      have hrpos : 0 < acl_len_field r := (hwf r (by simp)).2.1
      have hlt : acc.length + acl_len_field c < size := by
        simp only [List.map_cons, List.sum_cons] at hsum
        omega
      obtain ⟨rt, hrun⟩ := ih (acc ++ c.drop 5) size (by simp)
        (fun x hx => hwf x (List.mem_cons_of_mem _ hx))
        (by rw [List.length_append]; omega)
        (by rw [hhandle]; exact hflags)
        (by rw [hlenf]; exact hsize)
        (by rw [hlenf]; exact hL)
        (by
          simp only [List.map_cons, List.sum_cons] at hsum ⊢
          omega)
      have hfin2 : bt_host_acl_hdlr devs ⟨acc, acc.length, size⟩ c c.length =
          (⟨acc ++ c.drop 5, (acc ++ c.drop 5).length, size⟩, none) := by
        rw [hstep, if_pos hlt, hbuflen]
      refine ⟨rt, ?_⟩
      rw [aclRun_cons, hfin2]
      simp only []
      rw [hrun]
      simp [List.append_assoc, List.replicate_succ, List.length_cons,
        List.flatten_cons, List.map_cons, List.cons_append]

/-- C1: for a fragmented START packet followed by well-formed
continuation packets whose cumulative ACL payload exactly reaches the
declared target (L2CAP length plus header overhead), the reassembler
dispatches nothing until the final fragment, then dispatches exactly one
logical frame whose bytes are the start packet followed by the
continuation payloads in arrival order, with the frame length equal to
the target; afterwards any new fragmented START simply overwrites the
scratch state (implicit return to Idle). -/
theorem acl_reassembly_correct (devs : List BtDev) (st0 : FragState)
    (s : List Nat) (conts : List (List Nat))
    (hflags : bt_acl_flags (acl_handle_field s) = BT_ACL_START)
    (h9 : 9 ≤ s.length) (h32 : s.length < 4294967296)
    (hfrag : s.length - 9 < l2cap_len_field s)
    (hL : l2cap_len_field s < 65536)
    (hconts : ∀ c ∈ conts, wfCont c) (hne : conts ≠ [])
    (hsum : s.length + (conts.map acl_len_field).sum = l2cap_len_field s + 9) :
    ∃ rt,
      (aclRun devs st0 (s :: conts)).2 =
        List.replicate conts.length none ++
          [some ⟨s ++ (conts.map (fun c => c.drop 5)).flatten,
            l2cap_len_field s + 9, rt⟩] ∧
      ∀ (s2 : List Nat) (len2 : Nat),
        bt_acl_flags (acl_handle_field s2) = BT_ACL_START →
        usub32 len2 HDR_OVERHEAD < l2cap_len_field s2 →
        bt_host_acl_hdlr devs (aclRun devs st0 (s :: conts)).1 s2 len2 =
          (⟨s2.take len2, len2, l2cap_len_field s2 + 9⟩, none) := by
  have hfrag2 : usub32 s.length HDR_OVERHEAD < l2cap_len_field s := by
    have h95 : HDR_OVERHEAD = 9 := rfl
    rw [h95, usub32_eq s.length 9 h9 h32]
    exact hfrag
  have hstart : bt_host_acl_hdlr devs st0 s s.length =
      (⟨s, s.length, l2cap_len_field s + 9⟩, none) := by
    have h := acl_hdlr_start_step devs st0 s s.length hflags hfrag2
    rw [List.take_length] at h
    exact h
  obtain ⟨rt, hrun⟩ := aclRun_cont_complete devs conts s (l2cap_len_field s + 9)
    hne hconts h9 hflags rfl hL hsum
  refine ⟨rt, ?_, ?_⟩
  · simp only [aclRun, hstart, hrun]
    exact cons_replicate_append conts.length none _ (List.length_pos.mpr hne)
  · intro s2 len2 hf2 hfrag3
    exact acl_hdlr_start_step devs _ s2 len2 hf2 hfrag3

/-- Witness for C1: an 11-byte fragmented start (declared L2CAP length
4, 2 payload bytes present) and one continuation with the remaining 2
bytes; one frame of 13 bytes is dispatched. -/
theorem acl_reassembly_correct_witness :
    ∃ rt,
      (aclRun [] ⟨[], 0, 0⟩ (w1s :: [w1c])).2 =
        List.replicate ([w1c] : List (List Nat)).length none ++
          [some ⟨w1s ++ (([w1c] : List (List Nat)).map (fun c => c.drop 5)).flatten,
            l2cap_len_field w1s + 9, rt⟩] ∧
      ∀ (s2 : List Nat) (len2 : Nat),
        bt_acl_flags (acl_handle_field s2) = BT_ACL_START →
        usub32 len2 HDR_OVERHEAD < l2cap_len_field s2 →
        bt_host_acl_hdlr [] (aclRun [] ⟨[], 0, 0⟩ (w1s :: [w1c])).1 s2 len2 =
          (⟨s2.take len2, len2, l2cap_len_field s2 + 9⟩, none) :=
  acl_reassembly_correct [] ⟨[], 0, 0⟩ w1s [w1c] (by decide) (by decide) (by decide)
    (by decide) (by decide) (by decide) (by decide) (by decide)

/-- C5: routing of a complete logical ACL frame is the strict
first-match channel-id chain.  The handler routes the frame with
`routeCid` applied to the session resolved from the frame's connection
handle; with no session the frame goes to the Config Session attribute
handler exactly when the cid is the attribute-protocol id and is
otherwise dropped with a log; with a session, the signaling check comes
first (it wins even if the cid also matches an SDP or HID channel),
then the SDP scid pair, then the HID control/interrupt pair, and only
the first matching handler receives the frame. -/
theorem acl_routing_priority (devs : List BtDev) (st : FragState)
    (pkt : List Nat) (len : Nat)
    (hnc : bt_acl_flags (acl_handle_field pkt) ≠ BT_ACL_CONT)
    (hns : ¬(bt_acl_flags (acl_handle_field pkt) = BT_ACL_START ∧
        usub32 len HDR_OVERHEAD < l2cap_len_field pkt)) :
    bt_host_acl_hdlr devs st pkt len =
      (st, some ⟨pkt, len,
        routeCid (bt_host_get_dev_from_handle devs (acl_handle_field pkt))
          (l2cap_cid_field pkt)⟩) ∧
    ((routeCid none (l2cap_cid_field pkt) = .att ↔
        l2cap_cid_field pkt = BT_L2CAP_CID_ATT) ∧
      (routeCid none (l2cap_cid_field pkt) = .dropNull ↔
        l2cap_cid_field pkt ≠ BT_L2CAP_CID_ATT)) ∧
    (∀ d : BtDev,
      (routeCid (some d) (l2cap_cid_field pkt) = .sig ↔
        l2cap_cid_field pkt = BT_L2CAP_CID_BR_SIG) ∧
      (l2cap_cid_field pkt ≠ BT_L2CAP_CID_BR_SIG →
        (l2cap_cid_field pkt = d.sdp_tx_scid ∨ l2cap_cid_field pkt = d.sdp_rx_scid) →
        routeCid (some d) (l2cap_cid_field pkt) = .sdp) ∧
      (l2cap_cid_field pkt ≠ BT_L2CAP_CID_BR_SIG →
        ¬(l2cap_cid_field pkt = d.sdp_tx_scid ∨ l2cap_cid_field pkt = d.sdp_rx_scid) →
        (l2cap_cid_field pkt = d.ctrl_scid ∨ l2cap_cid_field pkt = d.intr_scid) →
        routeCid (some d) (l2cap_cid_field pkt) = .hid) ∧
      (l2cap_cid_field pkt ≠ BT_L2CAP_CID_BR_SIG →
        ¬(l2cap_cid_field pkt = d.sdp_tx_scid ∨ l2cap_cid_field pkt = d.sdp_rx_scid) →
        ¬(l2cap_cid_field pkt = d.ctrl_scid ∨ l2cap_cid_field pkt = d.intr_scid) →
        routeCid (some d) (l2cap_cid_field pkt) = .unmatched)) := by
  refine ⟨?_, ⟨?_, ?_⟩, ?_⟩
  · simp only [bt_host_acl_hdlr, if_neg hnc, startCheckAndRoute, if_neg hns]
  · by_cases hatt : l2cap_cid_field pkt = BT_L2CAP_CID_ATT <;> simp [routeCid, hatt]
  · by_cases hatt : l2cap_cid_field pkt = BT_L2CAP_CID_ATT <;> simp [routeCid, hatt]
  · intro d
    refine ⟨?_, ?_, ?_, ?_⟩
    · by_cases hsig : l2cap_cid_field pkt = BT_L2CAP_CID_BR_SIG
      · simp [routeCid, hsig]
      · simp only [routeCid, if_neg hsig]
        constructor
        · intro h
          split_ifs at h
        · intro h; exact absurd h hsig
    · intro hsig hsdp
      simp [routeCid, hsig, hsdp]
    · intro hsig hsdp hhid
      simp [routeCid, hsig, hsdp, hhid]
    · intro hsig hsdp hhid
      simp [routeCid, hsig, hsdp, hhid]

/-- Witness for C5 at a one-session table and a complete frame whose
cid matches the session's HID control channel. -/
theorem acl_routing_priority_witness :
    bt_host_acl_hdlr [w5dev] ⟨[], 0, 0⟩ w5pkt 13 =
      (⟨[], 0, 0⟩, some ⟨w5pkt, 13,
        routeCid (bt_host_get_dev_from_handle [w5dev] (acl_handle_field w5pkt))
          (l2cap_cid_field w5pkt)⟩) ∧
    ((routeCid none (l2cap_cid_field w5pkt) = .att ↔
        l2cap_cid_field w5pkt = BT_L2CAP_CID_ATT) ∧
      (routeCid none (l2cap_cid_field w5pkt) = .dropNull ↔
        l2cap_cid_field w5pkt ≠ BT_L2CAP_CID_ATT)) ∧
    (∀ d : BtDev,
      (routeCid (some d) (l2cap_cid_field w5pkt) = .sig ↔
        l2cap_cid_field w5pkt = BT_L2CAP_CID_BR_SIG) ∧
      (l2cap_cid_field w5pkt ≠ BT_L2CAP_CID_BR_SIG →
        (l2cap_cid_field w5pkt = d.sdp_tx_scid ∨ l2cap_cid_field w5pkt = d.sdp_rx_scid) →
        routeCid (some d) (l2cap_cid_field w5pkt) = .sdp) ∧
      (l2cap_cid_field w5pkt ≠ BT_L2CAP_CID_BR_SIG →
        ¬(l2cap_cid_field w5pkt = d.sdp_tx_scid ∨ l2cap_cid_field w5pkt = d.sdp_rx_scid) →
        (l2cap_cid_field w5pkt = d.ctrl_scid ∨ l2cap_cid_field w5pkt = d.intr_scid) →
        routeCid (some d) (l2cap_cid_field w5pkt) = .hid) ∧
      (l2cap_cid_field w5pkt ≠ BT_L2CAP_CID_BR_SIG →
        ¬(l2cap_cid_field w5pkt = d.sdp_tx_scid ∨ l2cap_cid_field w5pkt = d.sdp_rx_scid) →
        ¬(l2cap_cid_field w5pkt = d.ctrl_scid ∨ l2cap_cid_field w5pkt = d.intr_scid) →
        routeCid (some d) (l2cap_cid_field w5pkt) = .unmatched)) :=
  acl_routing_priority [w5dev] ⟨[], 0, 0⟩ w5pkt 13 (by decide) (by decide)

end BlueRetro
